import Mathlib

/-!
Verification of the KiiChain price-feeder aggregation and voting pipeline.

The Go source is shallowly embedded:
* `cosmossdk.io/math.LegacyDec` (18-decimal fixed point backed by a big
  integer) is modelled as `ℤ`, holding the internal value in units of
  `10 ^ (-18)`.  `Add`/`Sub` on `LegacyDec` are exact integer operations;
  `Mul` and `Quo` re-round to 18 decimals with `chopPrecisionAndRound`
  (round to nearest, ties to even, symmetric about zero), and `QuoInt64`
  and the inner quotient of `Quo` truncate toward zero (`big.Int.Quo`).
  All of these are reproduced bit-for-bit below.
* Go hash maps keyed by strings are modelled as association lists
  (`SMap`).  Where the Go code accumulates sums into a map while ranging
  over another map (ranging order is unspecified in Go), the model
  computes the per-key sum directly; integer addition is commutative and
  associative, so the per-key totals agree with every ranging order.
* Fallible code and panics are modelled with `Except String`.
-/

namespace PriceFeeder

/-- Internal scale of `LegacyDec`: 18 decimal places (`precisionReuse`,
`10 ^ 18`). -/
def decPrec : ℤ := 1000000000000000000

/-- Half of the scale (`fivePrecision`), the rounding tie point. -/
def fivePrec : ℤ := 500000000000000000

/-- Rounding step of `chopPrecisionAndRound` on a non-negative argument:
divide by `10 ^ 18`; a remainder below half rounds down, above half rounds
up, and an exact half rounds to the even quotient (the Go code tests the
last decimal digit of the quotient). -/
def chopRoundNN (x : ℤ) : ℤ :=
  if x % decPrec = 0 then x / decPrec
  else if x % decPrec < fivePrec then x / decPrec
  else if fivePrec < x % decPrec then x / decPrec + 1
  else if (x / decPrec) % 2 = 0 then x / decPrec else x / decPrec + 1

/-- Model of `chopPrecisionAndRound`: negative arguments are negated,
rounded, and negated back, exactly as in the Go source. -/
def chopRound (x : ℤ) : ℤ :=
  if x < 0 then -(chopRoundNN (-x)) else chopRoundNN x

/-- Model of `LegacyDec.Mul`: multiply the internal integers and re-round
to 18 decimals. -/
def decMul (a b : ℤ) : ℤ := chopRound (a * b)

/-- Model of `LegacyDec.Quo`: multiply the numerator by the precision
twice, take the truncated (`big.Int.Quo`) quotient, and re-round. -/
def decQuo (a b : ℤ) : ℤ := chopRound (Int.tdiv (a * decPrec * decPrec) b)

/-- Model of `LegacyDec.QuoInt64`: truncated integer quotient, no
re-rounding. -/
def decQuoInt (a n : ℤ) : ℤ := Int.tdiv a n

/-- Model of `math.LegacyNewDec`: an integer scaled to 18 decimals. -/
def legacyNewDec (n : ℤ) : ℤ := n * decPrec

/-- The constant `minimumTimeWeight = LegacyMustNewDecFromStr("0.2")`. -/
def minimumTimeWeight : ℤ := 200000000000000000

/-- Association-list model of a Go map keyed by strings. -/
abbrev SMap (α : Type) := List (String × α)

/-- Map lookup. -/
def lookupA {α : Type} (m : SMap α) (k : String) : Option α :=
  (m.find? (fun e => e.1 == k)).map (fun e => e.2)

/-- Model of `provider.TickerPrice`: last price and 24h volume, both
`LegacyDec`.  (The `provider` package itself is outside `src/`; the field
set is the one used by `oracle/util.go` and matches the spec's data
model.) -/
structure TickerPrice where
  price : ℤ
  volume : ℤ
deriving DecidableEq, Repr

/-- Model of `provider.CandlePrice`: price, volume and timestamp of one
candle.  (Same provenance note as `TickerPrice`.) -/
structure CandlePrice where
  price : ℤ
  volume : ℤ
  timeStamp : ℤ
deriving DecidableEq, Repr

/-- Model of `provider.AggregatedProviderPrices`:
provider name → base → ticker. -/
abbrev AggPrices := SMap (SMap TickerPrice)

/-- Model of `provider.AggregatedProviderCandles`:
provider name → base → candle list. -/
abbrev AggCandles := SMap (SMap (List CandlePrice))

/-- All inner values stored under key `k`, across the outer map. -/
def valuesFor {α : Type} (m : SMap (SMap α)) (k : String) : List α :=
  m.foldr (fun pv acc => (pv.2.filter (fun e => e.1 == k)).map (fun e => e.2) ++ acc) []

/-- The set of keys appearing in the inner maps of a two-level map. -/
def innerKeys {α : Type} (m : SMap (SMap α)) : List String :=
  (m.foldr (fun pv acc => pv.2.map (fun e => e.1) ++ acc) []).dedup

/-- All tickers submitted for `base`, across providers, in ranging
order. -/
def tickersFor (prices : AggPrices) (base : String) : List TickerPrice :=
  valuesFor prices base

/-- The set of bases appearing in an aggregated prices map (the key set
of the `weightedPrices`/`volumeSum` maps built by `ComputeVWAP`). -/
def vwapBases (prices : AggPrices) : List String :=
  innerKeys prices

/-- `weightedPrices[base]` of `ComputeVWAP`: `Σ {P * V}` over all
submitted tickers of the base, each product rounded by `Mul`. -/
def weightedPriceSum (prices : AggPrices) (base : String) : ℤ :=
  ((tickersFor prices base).map (fun t => decMul t.price t.volume)).sum

/-- `volumeSum[base]` of `ComputeVWAP`: total volume for the base. -/
def volumeSumOf (prices : AggPrices) (base : String) : ℤ :=
  ((tickersFor prices base).map (fun t => t.volume)).sum

/-- Model of the `vwap` helper of `oracle/util.go`: for every base whose
volume sum is non-zero, divide the weighted price sum by it; bases with a
zero volume sum are omitted.  (The Go function's error is always `nil`.) -/
def vwapList (sums : SMap (ℤ × ℤ)) : SMap ℤ :=
  sums.filterMap (fun x => if x.2.2 = 0 then none else some (x.1, decQuo x.2.1 x.2.2))

/-- Model of `ComputeVWAP` of `oracle/util.go`: accumulate `Σ {P * V}`
and `Σ V` per base and feed the two maps to `vwap`. -/
def ComputeVWAP (prices : AggPrices) : SMap ℤ :=
  vwapList ((vwapBases prices).map (fun b => (b, weightedPriceSum prices b, volumeSumOf prices b)))

/-- Error-propagating map (the behaviour of ranging in Go where the body
may panic: the first failing element aborts the whole computation). -/
def mapME {α β : Type} (f : α → Except String β) : List α → Except String (List β)
  | [] => .ok []
  | x :: xs =>
    match f x, mapME f xs with
    | .ok y, .ok ys => .ok (y :: ys)
    | .error e, _ => .error e
    | .ok _, .error e => .error e

/-- The factor that actually multiplies `candle.Volume` in the source
line
`candle.Volume.Mul(weightUnit.Mul(period.Sub(timeDiff).Add(minimumTimeWeight)))`:
note the parenthesisation `weightUnit · (period − timeDiff + minimumTimeWeight)`. -/
def codeTvwapWeight (weightUnit period timeDiff : ℤ) : ℤ :=
  decMul weightUnit ((period - timeDiff) + minimumTimeWeight)

/-- Modelled from the spec: the claimed per-candle weight
`weight = weightUnit · (period − timeDiff) + minimumTimeWeight` — the
formula stated in the spec (and in the comment above the source line).
Used only to compare against `codeTvwapWeight`. -/
def specTvwapWeight (weightUnit period timeDiff : ℤ) : ℤ :=
  decMul weightUnit (period - timeDiff) + minimumTimeWeight

/-- Loop body of the per-candle loop of `ComputeTVWAP`: a candle newer
than `timePeriod` adds `(price · volume·w, volume·w)` to the running
pair, with `w = codeTvwapWeight`; older candles contribute nothing. -/
def tvwapStep (now timePeriod period weightUnit : ℤ) (acc : ℤ × ℤ) (c : CandlePrice) : ℤ × ℤ :=
  if timePeriod < c.timeStamp then
    let timeDiff := legacyNewDec (now - c.timeStamp)
    let volume := decMul c.volume (codeTvwapWeight weightUnit period timeDiff)
    (acc.1 + decMul c.price volume, acc.2 + volume)
  else acc

/-- The candle ordering of `sort.SliceStable` in `ComputeTVWAP`. -/
def candleLe (a b : CandlePrice) : Prop := a.timeStamp ≤ b.timeStamp

instance : DecidableRel candleLe := fun a b => inferInstanceAs (Decidable (a.timeStamp ≤ b.timeStamp))

/-- The stable sort by timestamp (old → new) performed by
`sort.SliceStable` in `ComputeTVWAP`, modelled with a stable insertion
sort. -/
def sortCandles (cp : List CandlePrice) : List CandlePrice :=
  List.insertionSort candleLe cp

/-- Per-`(provider, base)` accumulation of `ComputeTVWAP`: sort the
candles by timestamp (old → new), let the oldest define
`period = now − cp[0].TimeStamp`, derive
`weightUnit = (0 − minimumTimeWeight) / period` (no division when the
period is zero), and run the candle loop (`tvwapStep`).  Indexing
`cp[0]` of an empty slice panics, modelled as an error. -/
def tvwapPairSums (now timePeriod : ℤ) (cp : List CandlePrice) : Except String (ℤ × ℤ) :=
  match sortCandles cp with
  | [] => .error "runtime error: index out of range [0] with length 0"
  | c0 :: rest =>
    let period := legacyNewDec (now - c0.timeStamp)
    let weightUnit := if period = 0 then 0 - minimumTimeWeight
                      else decQuo (0 - minimumTimeWeight) period
    .ok ((c0 :: rest).foldl (tvwapStep now timePeriod period weightUnit) (0, 0))

/-- All candle lists submitted for `base`, across providers. -/
def candleListsFor (prices : AggCandles) (base : String) : List (List CandlePrice) :=
  valuesFor prices base

/-- The key set of the `weightedPrices`/`volumeSum` maps of
`ComputeTVWAP`. -/
def tvwapBases (prices : AggCandles) : List String :=
  innerKeys prices

/-- `(weightedPrices[base], volumeSum[base])` of `ComputeTVWAP`: the sum
of the per-provider accumulations for the base. -/
def tvwapSums (now timePeriod : ℤ) (prices : AggCandles) (base : String) :
    Except String (ℤ × ℤ) :=
  match mapME (tvwapPairSums now timePeriod) (candleListsFor prices base) with
  | .error e => .error e
  | .ok sums => .ok (sums.foldl (fun a p => (a.1 + p.1, a.2 + p.2)) (0, 0))

/-- Model of `ComputeTVWAP` of `oracle/util.go`.  `now` models
`provider.PastUnixTime(0)` (or the mocked clock) and `timePeriod`
models `provider.PastUnixTime(tvwapCandlePeriod)`, i.e. `now` minus five
minutes. -/
def ComputeTVWAP (now timePeriod : ℤ) (prices : AggCandles) : Except String (SMap ℤ) :=
  match mapME (fun b =>
      match tvwapSums now timePeriod prices b with
      | .error e => .error e
      | .ok s => .ok (b, s)) (tvwapBases prices) with
  | .error e => .error e
  | .ok sums => .ok (vwapList sums)

/-! Standard deviation (`StandardDeviation` of `oracle/util.go`). -/

/-- Newton iteration of `LegacyDec.ApproxRoot` specialised to the square
root (`root = 2`, so `guess.Power(root-1) = guess`): it stops when the
last delta is at most one unit (`smallestDec`) or after 100 iterations
(`maxApproxRootIterations`). -/
def approxSqrtLoop (d : ℤ) : ℕ → ℤ → ℤ → ℤ
  | 0, guess, _ => guess
  | fuel + 1, guess, delta =>
    if delta.natAbs ≤ 1 then guess
    else
      let prev := if guess = 0 then 1 else guess
      let delta2 := decQuoInt (decQuo d prev - guess) 2
      approxSqrtLoop d fuel (guess + delta2) delta2

/-- Model of `LegacyDec.ApproxSqrt` (i.e. `ApproxRoot(2)`) on a
non-negative argument: zero and one are returned unchanged, otherwise
Newton iteration from a guess of one. -/
def approxSqrtNN (d : ℤ) : ℤ :=
  if d = 0 ∨ d = decPrec then d else approxSqrtLoop d 100 decPrec decPrec

/-- Model of `LegacyDec.ApproxSqrt`: a negative argument is negated,
rooted, and negated back.  (The Go error return is only produced by a
recovered panic and never fires on these inputs; the model is total.) -/
def approxSqrt (d : ℤ) : ℤ :=
  if d < 0 then -(approxSqrtNN (-d)) else approxSqrtNN d

/-- All price observations for `base` across providers (the
`priceSlice[base]` of `StandardDeviation`). -/
def obsFor (prices : SMap (SMap ℤ)) (base : String) : List ℤ :=
  valuesFor prices base

/-- The key set of the `priceSums`/`priceSlice` maps of
`StandardDeviation`. -/
def sdBases (prices : SMap (SMap ℤ)) : List String :=
  innerKeys prices

/-- The `means[base]` entry of `StandardDeviation`: skipped below three
observations, otherwise `sum.QuoInt64(numPrices)`. -/
def sdMeanEntry (prices : SMap (SMap ℤ)) (b : String) : Option (String × ℤ) :=
  let ps := obsFor prices b
  if ps.length < 3 then none
  else some (b, decQuoInt ps.sum (ps.length : ℤ))

/-- The `deviations[base]` entry of `StandardDeviation`: skipped below
three observations, otherwise the `ApproxSqrt` of
`Σ (p − mean)² QuoInt64 numPrices`, squaring with `Mul`. -/
def sdDevEntry (prices : SMap (SMap ℤ)) (b : String) : Option (String × ℤ) :=
  let ps := obsFor prices b
  if ps.length < 3 then none
  else
    let mean := decQuoInt ps.sum (ps.length : ℤ)
    let varianceSum := (ps.map (fun p => decMul (p - mean) (p - mean))).sum
    some (b, approxSqrt (decQuoInt varianceSum (ps.length : ℤ)))

/-- Model of `StandardDeviation` of `oracle/util.go`.  The Go function
builds both maps in one loop over `priceSums`; the model builds each map
directly, with identical entries.  Returns `(deviations, means)`. -/
def StandardDeviation (prices : SMap (SMap ℤ)) : SMap ℤ × SMap ℤ :=
  ((sdBases prices).filterMap (sdDevEntry prices),
   (sdBases prices).filterMap (sdMeanEntry prices))

/-! Oracle engine (`src/unnamed/part_000`, package `oracle`). -/

/-- Model of `types.CurrencyPair`. -/
structure CurrencyPair where
  base : String
  quote : String
deriving DecidableEq, Repr

/-- `CurrencyPair.String()`: the concatenation `Base||Quote`. -/
def pairString (p : CurrencyPair) : String := p.base ++ p.quote

/-- Insert or replace a key in an association-list map (Go map
assignment `m[k] = v`). -/
def insertA {α : Type} (m : SMap α) (k : String) (v : α) : SMap α :=
  match m with
  | [] => [(k, v)]
  | e :: rest => if e.1 == k then (k, v) :: rest else e :: insertA rest k v

/-- Model of `SetProviderTickerPricesAndCandles`: ensure the provider has
inner maps, copy the ticker and the candle list found under the pair's
`String()` key (whatever they are, an empty candle list included), and
report success iff at least one of the two keys exists.  Returns the
updated `(providerPrices, providerCandles, success)`. -/
def SetProviderTickerPricesAndCandles (providerName : String) (providerPrices : AggPrices)
    (providerCandles : AggCandles) (prices : SMap TickerPrice)
    (candles : SMap (List CandlePrice)) (pair : CurrencyPair) :
    AggPrices × AggCandles × Bool :=
  let pp := if (lookupA providerPrices providerName).isNone
            then insertA providerPrices providerName [] else providerPrices
  let pc := if (lookupA providerCandles providerName).isNone
            then insertA providerCandles providerName [] else providerCandles
  let tp := lookupA prices (pairString pair)
  let cp := lookupA candles (pairString pair)
  let pp2 := match tp with
    | some t => insertA pp providerName (insertA ((lookupA pp providerName).getD []) pair.base t)
    | none => pp
  let pc2 := match cp with
    | some c => insertA pc providerName (insertA ((lookupA pc providerName).getD []) pair.base c)
    | none => pc
  (pp2, pc2, tp.isSome || cp.isSome)

/-- Model of `healthchecksPing`: for each configured URL perform the GET
(`getOk` tells whether it succeeds).  On a failed GET the Go code logs a
warning but then still runs `response.Body.Close()` on the `nil`
response, a nil-pointer dereference: modelled as an error (panic). -/
def healthchecksPing (urls : List String) (getOk : String → Bool) : Except String Unit :=
  match urls with
  | [] => .ok ()
  | u :: rest =>
    if getOk u then healthchecksPing rest getOk
    else .error "runtime error: invalid memory address or nil pointer dereference"

/-- The provider caches of the `Oracle` struct (`priceProviders` and
`failedProviders`), generic over the adapter type. -/
structure ProviderStore (α : Type) where
  priceProviders : SMap α
  failedProviders : SMap String
deriving DecidableEq, Repr

/-- Model of `getOrSetProvider`: a provider recorded as failed is
rejected without a retry; a cached adapter is returned as is; otherwise
`NewProvider` (the `create` argument, fixed per process) runs once and
its outcome is recorded.  The boolean reports whether `NewProvider` was
invoked by this call. -/
def getOrSetProvider {α : Type} (create : String → Except String α) (st : ProviderStore α)
    (name : String) : Except String α × ProviderStore α × Bool :=
  match lookupA st.failedProviders name with
  | some e => (.error ("failed at first init (skipping provider): " ++ e), st, false)
  | none =>
    match lookupA st.priceProviders name with
    | some p => (.ok p, st, false)
    | none =>
      match create name with
      | .error e => (.error e, { st with failedProviders := insertA st.failedProviders name e }, true)
      | .ok p => (.ok p, { st with priceProviders := insertA st.priceProviders name p }, true)

/-- A sequence of `getOrSetProvider` calls, returning the per-call
`(result, NewProvider was invoked)` list and the final store. -/
def runProviderCalls {α : Type} (create : String → Except String α) (st : ProviderStore α) :
    List String → List (Except String α × Bool) × ProviderStore α
  | [] => ([], st)
  | n :: rest =>
    let r := getOrSetProvider create st n
    let rest2 := runProviderCalls create r.2.1 rest
    ((r.1, r.2.2) :: rest2.1, rest2.2)

/-! Required rates and the commit step of `SetPrices`. -/

/-- The `requiredRates` set built by `SetPrices`: ranging over
`o.providerPairs`, pairs of a provider whose `getOrSetProvider` fails are
skipped (`continue`), and a base is added when the chain denomination
mapped to it is in the cached whitelist.  (Go accumulates into a set
while ranging; the model collects the bases of non-skipped providers,
de-duplicates and filters — the same set.) -/
def requiredRatesList (providerOk : String → Bool) (providerPairs : SMap (List CurrencyPair))
    (cdm : SMap String) (whitelist : List String) : List String :=
  ((providerPairs.foldr (fun pv acc =>
      if providerOk pv.1 then pv.2.map (fun p => p.base) ++ acc else acc) []).dedup).filter
    (fun b => whitelist.contains ((lookupA cdm b).getD ""))

/-- Modelled from the spec: `requiredRates = {base | base in configured
pairs AND chainDenom(base) ∈ whitelist}` — the claimed required set,
with no provider-failure exclusion.  Used only to compare with
`requiredRatesList`. -/
def specRequiredRates (providerPairs : SMap (List CurrencyPair))
    (cdm : SMap String) (whitelist : List String) : List String :=
  ((providerPairs.foldr (fun pv acc => pv.2.map (fun p => p.base) ++ acc) []).dedup).filter
    (fun b => whitelist.contains ((lookupA cdm b).getD ""))

/-- The tail of `SetPrices` (after `GetComputedPrices` succeeded): if
some required base is missing from the computed prices, return the
`missing required rate` error and leave `o.prices` unchanged; otherwise
store the computed prices.  Returns `(error?, stored prices)`. -/
def setPricesCommit (required : List String) (computed old : SMap ℤ) :
    Option String × SMap ℤ :=
  match required.find? (fun b => (lookupA computed b).isNone) with
  | some b => (some ("reported prices were not equal to required rates, missed: " ++ b), old)
  | none => (none, computed)

/-! The tick (`func (o *Oracle) tick`). -/

/-- The oracle module parameters used by the tick. -/
structure OracleParams where
  votePeriod : ℤ
  whitelist : List String
deriving DecidableEq, Repr

/-- One tick's external environment: the block height and the outcomes of
the jail query, the param query, `SetPrices`, the validator-address
parse, the broadcast, and the healthcheck GETs. -/
structure TickEnv where
  blockHeight : ℤ
  jailedRes : Except String Bool
  paramsRes : Except String OracleParams
  setPricesErr : Option String
  valAddrOk : Except String Unit
  broadcastOk : Except String Unit
  healthUrls : List String
  healthGetOk : String → Bool

/-- The tick-mutated oracle state relevant to voting. -/
structure TickState where
  previousVotePeriod : ℤ
deriving DecidableEq, Repr

/-- `currentVotePeriod = math.Floor(float64(blockHeight+1) /
float64(oracleVotePeriod))`, an exact floor for the int64 ranges
representable in `float64`. -/
def currentVotePeriodOf (blockHeight votePeriod : ℤ) : ℤ :=
  Int.fdiv (blockHeight + 1) votePeriod

/-- Model of `tick`: validate the height, consult the jail cache, the
param cache and `SetPrices`, skip when the vote period was already voted,
otherwise parse the validator address, broadcast, and only on a
successful broadcast advance `previousVotePeriod` and run the health
pings (whose nil-dereference panic, if any, escapes `tick`). -/
def tick (env : TickEnv) (st : TickState) : Except String Unit × TickState :=
  if env.blockHeight < 1 then (.error "expected positive block height", st)
  else
    match env.jailedRes with
    | .error e => (.error e, st)
    | .ok true => (.error "validator is jailed", st)
    | .ok false =>
      match env.paramsRes with
      | .error e => (.error e, st)
      | .ok params =>
        match env.setPricesErr with
        | some e => (.error e, st)
        | none =>
          if currentVotePeriodOf env.blockHeight params.votePeriod = st.previousVotePeriod
          then (.ok (), st)
          else
            match env.valAddrOk with
            | .error e => (.error e, st)
            | .ok _ =>
              match env.broadcastOk with
              | .error e => (.error e, st)
              | .ok _ =>
                (healthchecksPing env.healthUrls env.healthGetOk,
                 { previousVotePeriod :=
                     currentVotePeriodOf env.blockHeight params.votePeriod })

/-- Whether a run of `tick` reaches a successful broadcast (mirrors the
guard sequence of `tick`; a statement-side definition for the claim
"`previousPeriod` advances iff broadcast returns success"). -/
def tickBroadcastSuccess (env : TickEnv) (st : TickState) : Bool :=
  if env.blockHeight < 1 then false
  else
    match env.jailedRes, env.paramsRes, env.setPricesErr, env.valAddrOk, env.broadcastOk with
    | .ok false, .ok params, none, .ok _, .ok _ =>
      decide (currentVotePeriodOf env.blockHeight params.votePeriod ≠ st.previousVotePeriod)
    | _, _, _, _, _ => false

/-- The vote period a successful tick would record. -/
def tickVotePeriod (env : TickEnv) : ℤ :=
  match env.paramsRes with
  | .ok params => currentVotePeriodOf env.blockHeight params.votePeriod
  | .error _ => 0

/-! The canonical exchange-rate string (`GenerateExchangeRatesString`). -/

/-- Left-pad a digit string with zeros. -/
def padZeros (s : String) (n : ℕ) : String :=
  String.mk (List.replicate (n - s.length) '0') ++ s

/-- Model of `LegacyDec.String()`: sign, integer digits, a dot, and all
18 fractional digits. -/
def decToString (x : ℤ) : String :=
  let sign := if x < 0 then "-" else ""
  let n := x.natAbs
  sign ++ toString (n / 1000000000000000000) ++ "." ++
    padZeros (toString (n % 1000000000000000000)) 18

/-- Model of `sdk.DecCoin.String()`: amount then denom. -/
def decCoinString (c : String × ℤ) : String := decToString c.2 ++ c.1

/-- Model of `sdk.DecCoins.String()`: comma-joined coins, empty string
for no coins. -/
def decCoinsString (coins : List (String × ℤ)) : String :=
  String.intercalate "," (coins.map decCoinString)

/-- The ordering used by `sdk.DecCoins.Sort()`: by denomination. -/
def coinLe (a b : String × ℤ) : Prop := a.1 ≤ b.1

instance : DecidableRel coinLe := fun a b => inferInstanceAs (Decidable (a.1 ≤ b.1))

instance : IsTotal (String × ℤ) coinLe := ⟨fun a b => le_total a.1 b.1⟩

instance : IsTrans (String × ℤ) coinLe := ⟨fun _ _ _ h1 h2 => le_trans h1 h2⟩

/-- Strict ordering by denomination (for uniqueness of the sorted
order on distinct denominations). -/
def coinLt (a b : String × ℤ) : Prop := a.1 < b.1

instance : IsAntisymm (String × ℤ) coinLt := ⟨fun _ _ h1 h2 => absurd h2 (lt_asymm h1)⟩

/-- Model of `DecCoins.Sort()`: a comparison sort by denomination (Go
uses `sort.Sort` with `Less` comparing denoms; on a valid `DecCoins`
value the denominations are pairwise distinct, so every comparison sort
produces the same list). -/
def sortCoins (coins : List (String × ℤ)) : List (String × ℤ) :=
  List.insertionSort coinLe coins

/-- Model of `GenerateExchangeRatesString`: sort (in place) and render. -/
def GenerateExchangeRatesString (prices : List (String × ℤ)) : String :=
  decCoinsString (sortCoins prices)

/-! Arithmetic facts about the rounding step. -/

theorem chopRound_of_dvd {x : ℤ} (h : decPrec ∣ x) : chopRound x = x / decPrec := by
  obtain ⟨k, rfl⟩ := h
  unfold chopRound chopRoundNN
  simp only [decPrec]
  split_ifs <;> omega

theorem le_chopRound_of_mul_le {a T : ℤ} (hT : 0 ≤ T) (h : a * decPrec ≤ T) :
    a ≤ chopRound T := by
  unfold chopRound chopRoundNN
  simp only [decPrec] at h ⊢
  split_ifs <;> omega

theorem chopRound_le_of_le_mul {b T : ℤ} (hT : 0 ≤ T) (h : T ≤ b * decPrec) :
    chopRound T ≤ b := by
  unfold chopRound chopRoundNN
  simp only [decPrec, fivePrec] at h ⊢
  split_ifs <;> omega

/-! Association-list and fold helpers. -/

theorem mem_foldr_append {α β : Type} (l : List α) (f : α → List β) (b : β) :
    b ∈ l.foldr (fun x acc => f x ++ acc) [] ↔ ∃ x ∈ l, b ∈ f x := by
  induction l with
  | nil => simp
  | cons h t ih => simp [List.foldr_cons, ih]

theorem mem_foldr_append_if {α β : Type} (l : List α) (P : α → Bool) (f : α → List β) (b : β) :
    b ∈ l.foldr (fun x acc => if P x then f x ++ acc else acc) [] ↔
      ∃ x ∈ l, P x = true ∧ b ∈ f x := by
  induction l with
  | nil => simp
  | cons h t ih =>
    by_cases hp : P h = true
    · simp [List.foldr_cons, hp, ih]
    · simp only [Bool.not_eq_true] at hp
      simp [List.foldr_cons, hp, ih]

theorem mem_valuesFor {α : Type} {m : SMap (SMap α)} {k : String} {v : α} :
    v ∈ valuesFor m k ↔ ∃ pv ∈ m, ∃ e ∈ pv.2, e.1 = k ∧ e.2 = v := by
  unfold valuesFor
  rw [mem_foldr_append]
  simp only [List.mem_map, List.mem_filter, beq_iff_eq]
  constructor
  · rintro ⟨pv, hpv, e, ⟨he, hk⟩, hv⟩
    exact ⟨pv, hpv, e, he, hk, hv⟩
  · rintro ⟨pv, hpv, e, he, hk, hv⟩
    exact ⟨pv, hpv, e, ⟨he, hk⟩, hv⟩

theorem mem_innerKeys {α : Type} {m : SMap (SMap α)} {k : String} :
    k ∈ innerKeys m ↔ ∃ pv ∈ m, ∃ e ∈ pv.2, e.1 = k := by
  unfold innerKeys
  rw [List.mem_dedup, mem_foldr_append]
  simp only [List.mem_map]

theorem innerKeys_nodup {α : Type} (m : SMap (SMap α)) : (innerKeys m).Nodup :=
  List.nodup_dedup _

theorem mem_innerKeys_of_mem_valuesFor {α : Type} {m : SMap (SMap α)} {k : String} {v : α}
    (h : v ∈ valuesFor m k) : k ∈ innerKeys m := by
  rcases mem_valuesFor.mp h with ⟨pv, hpv, e, he, hk, _⟩
  exact mem_innerKeys.mpr ⟨pv, hpv, e, he, hk⟩

theorem lookupA_eq_none_of_not_mem {α : Type} {m : SMap α} {b : String}
    (h : b ∉ m.map Prod.fst) : lookupA m b = none := by
  induction m with
  | nil => rfl
  | cons e t ih =>
    simp only [List.map_cons, List.mem_cons, not_or] at h
    unfold lookupA
    rw [List.find?_cons_of_neg]
    · exact ih h.2
    · simp [beq_iff_eq]
      exact fun he => h.1 he.symm

theorem lookupA_cons_self {α : Type} (e : String × α) (t : SMap α) :
    lookupA (e :: t) e.1 = some e.2 := by
  unfold lookupA
  rw [List.find?_cons_of_pos _ (by simp)]
  rfl

theorem lookupA_cons_ne {α : Type} (e : String × α) (t : SMap α) {b : String}
    (h : e.1 ≠ b) : lookupA (e :: t) b = lookupA t b := by
  unfold lookupA
  rw [List.find?_cons_of_neg]
  simp [beq_iff_eq, h]

theorem lookupA_insertA_self {α : Type} (m : SMap α) (k : String) (v : α) :
    lookupA (insertA m k v) k = some v := by
  induction m with
  | nil => simp [insertA, lookupA]
  | cons e t ih =>
    unfold insertA
    by_cases he : e.1 = k
    · simp only [he, beq_self_eq_true, if_true]
      exact lookupA_cons_self (k, v) t
    · rw [if_neg (by simpa using he)]
      rw [lookupA_cons_ne e _ he]
      exact ih

theorem lookupA_insertA_ne {α : Type} (m : SMap α) (k : String) (v : α) {b : String}
    (h : k ≠ b) : lookupA (insertA m k v) b = lookupA m b := by
  induction m with
  | nil =>
    show lookupA ((k, v) :: []) b = lookupA [] b
    rw [lookupA_cons_ne (k, v) [] h]
  | cons e t ih =>
    unfold insertA
    by_cases he : e.1 = k
    · rw [if_pos (by simpa using he)]
      rw [lookupA_cons_ne (k, v) t h, lookupA_cons_ne e t (he ▸ h)]
    · rw [if_neg (by simpa using he)]
      by_cases heb : e.1 = b
      · have h1 : lookupA (e :: insertA t k v) b = some e.2 := heb ▸ lookupA_cons_self e _
        have h2 : lookupA (e :: t) b = some e.2 := heb ▸ lookupA_cons_self e t
        rw [h1, h2]
      · rw [lookupA_cons_ne e _ heb, lookupA_cons_ne e t heb]
        exact ih

/-! Lookup characterisations of `vwapList` and keyed `filterMap`s. -/

theorem lookupA_vwapList_none {sums : SMap (ℤ × ℤ)} {b : String}
    (h : b ∉ sums.map Prod.fst) : lookupA (vwapList sums) b = none := by
  apply lookupA_eq_none_of_not_mem
  intro hmem
  apply h
  unfold vwapList at hmem
  rcases List.mem_map.mp hmem with ⟨e, he, hfst⟩
  rcases List.mem_filterMap.mp he with ⟨x, hx, hxe⟩
  by_cases hz : x.2.2 = 0
  · simp [hz] at hxe
  · simp only [hz, if_false, Option.some_inj] at hxe
    subst hxe
    exact List.mem_map.mpr ⟨x, hx, hfst⟩

theorem lookupA_vwapList (sums : SMap (ℤ × ℤ)) (b : String)
    (hnd : (sums.map Prod.fst).Nodup) :
    lookupA (vwapList sums) b =
      (lookupA sums b).bind (fun s => if s.2 = 0 then none else some (decQuo s.1 s.2)) := by
  induction sums with
  | nil => rfl
  | cons e t ih =>
    simp only [List.map_cons, List.nodup_cons] at hnd
    by_cases heb : e.1 = b
    · subst heb
      rw [lookupA_cons_self e t]
      by_cases hz : e.2.2 = 0
      · have h1 : vwapList (e :: t) = vwapList t := by
          unfold vwapList
          rw [List.filterMap_cons_none]
          simp [hz]
        rw [h1]
        have h2 : e.1 ∉ t.map Prod.fst := hnd.1
        rw [lookupA_vwapList_none h2]
        simp [hz]
      · have h1 : vwapList (e :: t) = (e.1, decQuo e.2.1 e.2.2) :: vwapList t := by
          unfold vwapList
          rw [List.filterMap_cons_some]
          simp [hz]
        rw [h1]
        have := lookupA_cons_self (e.1, decQuo e.2.1 e.2.2) (vwapList t)
        simp only at this
        rw [this]
        simp [hz]
    · have h1 : lookupA (e :: t) b = lookupA t b := lookupA_cons_ne e t heb
      rw [h1, ← ih hnd.2]
      by_cases hz : e.2.2 = 0
      · have h2 : vwapList (e :: t) = vwapList t := by
          unfold vwapList
          rw [List.filterMap_cons_none]
          simp [hz]
        rw [h2]
      · have h2 : vwapList (e :: t) = (e.1, decQuo e.2.1 e.2.2) :: vwapList t := by
          unfold vwapList
          rw [List.filterMap_cons_some]
          simp [hz]
        rw [h2]
        exact lookupA_cons_ne (e.1, decQuo e.2.1 e.2.2) (vwapList t) heb

theorem lookupA_map_key {α : Type} (bases : List String) (f : String → α) {b : String}
    (hb : b ∈ bases) :
    lookupA (bases.map (fun x => (x, f x))) b = some (f b) := by
  induction bases with
  | nil => simp at hb
  | cons h t ih =>
    by_cases hh : h = b
    · subst hh
      exact lookupA_cons_self (h, f h) _
    · rw [List.map_cons, lookupA_cons_ne _ _ hh]
      exact ih (by rcases List.mem_cons.mp hb with h1 | h1; exact absurd h1.symm hh; exact h1)

theorem lookupA_filterMap_keyed {α : Type} (bases : List String)
    (G : String → Option (String × α)) (hG : ∀ x p, G x = some p → p.1 = x) (b : String)
    (hnd : bases.Nodup) :
    lookupA (bases.filterMap G) b = if b ∈ bases then (G b).map Prod.snd else none := by
  induction bases with
  | nil => simp [lookupA]
  | cons h t ih =>
    rcases List.nodup_cons.mp hnd with ⟨hht, hndt⟩
    by_cases hh : h = b
    · subst hh
      rw [if_pos (List.mem_cons_self h t)]
      cases hGh : G h with
      | none =>
        rw [List.filterMap_cons_none hGh, ih hndt, if_neg hht]
        rfl
      | some p =>
        have hp1 : p.1 = h := hG h p hGh
        rw [List.filterMap_cons_some hGh]
        have := lookupA_cons_self p (t.filterMap G)
        rw [hp1] at this
        rw [this]
        rfl
    · rw [List.filterMap_cons]
      cases hGh : G h with
      | none =>
        rw [ih hndt]
        by_cases hbt : b ∈ t
        · rw [if_pos hbt, if_pos (List.mem_cons.mpr (Or.inr hbt))]
        · rw [if_neg hbt, if_neg (by simp [hh, hbt]; exact fun he => hh he.symm)]
      | some p =>
        have hp1 : p.1 = h := hG h p hGh
        rw [lookupA_cons_ne p _ (by rw [hp1]; exact hh), ih hndt]
        by_cases hbt : b ∈ t
        · rw [if_pos hbt, if_pos (List.mem_cons.mpr (Or.inr hbt))]
        · rw [if_neg hbt, if_neg (by simp [hbt]; exact fun he => hh he.symm)]

/-! `mapME` lemmas. -/

theorem mapME_cons {α β : Type} (f : α → Except String β) (x : α) (xs : List α) :
    mapME f (x :: xs) =
      (match f x, mapME f xs with
       | .ok y, .ok ys => .ok (y :: ys)
       | .error e, _ => .error e
       | .ok _, .error e => .error e) := rfl

theorem mapME_isOk {α β : Type} (f : α → Except String β) (l : List α) :
    (mapME f l).isOk = true ↔ ∀ x ∈ l, (f x).isOk = true := by
  induction l with
  | nil => simp [mapME, Except.isOk, Except.toBool]
  | cons h t ih =>
    simp only [List.mem_cons, forall_eq_or_imp, ← ih]
    rw [mapME_cons]
    cases hfh : f h <;> cases hmt : mapME f t <;>
      simp [Except.isOk, Except.toBool]

theorem mapME_ok_forall₂ {α β : Type} {f : α → Except String β} :
    ∀ {l : List α} {ys : List β}, mapME f l = .ok ys →
      List.Forall₂ (fun x y => f x = .ok y) l ys := by
  intro l
  induction l with
  | nil =>
    intro ys h
    unfold mapME at h
    cases h
    exact List.Forall₂.nil
  | cons h t ih =>
    intro ys hok
    rw [mapME_cons] at hok
    cases hfh : f h with
    | error e => rw [hfh] at hok; cases hok
    | ok y =>
      rw [hfh] at hok
      cases hmt : mapME f t with
      | error e => rw [hmt] at hok; cases hok
      | ok ts =>
        rw [hmt] at hok
        cases hok
        exact List.Forall₂.cons hfh (ih hmt)

theorem mapME_ok_of_forall {α β : Type} (f : α → Except String β) (g : α → β) :
    ∀ (l : List α), (∀ x ∈ l, f x = .ok (g x)) → mapME f l = .ok (l.map g) := by
  intro l
  induction l with
  | nil => intro _; rfl
  | cons h t ih =>
    intro hall
    rw [mapME_cons, hall h (List.mem_cons_self h t),
      ih (fun x hx => hall x (List.mem_cons.mpr (Or.inr hx)))]
    rfl

/-! Claim theorems. -/

/-- C1: the claim states that inside `ComputeTVWAP` every in-window
candle's volume is multiplied by
`weightUnit · (period − timeDiff) + minimumTimeWeight`, a weight in
`[0.2, 1.0]`, and that negative weights never occur.  The code instead
computes `weightUnit · ((period − timeDiff) + minimumTimeWeight)`, which
is negative for every candle in the window: at `now = 1000`,
`timePeriod = 700` and a single candle `(price 10, volume 1,
timestamp 900)` (so `period = timeDiff = 100 > 0`), the code's weight is
`−0.0004` and the accumulated weighted volume is `−0.0004 < 0`, while the
formula claimed by the spec (and by the comment in the source) evaluates
to `minimumTimeWeight = 0.2`. -/
theorem tvwapWeight_negative_in_code :
    (tvwapPairSums 1000 700 [⟨10000000000000000000, 1000000000000000000, 900⟩]).toOption =
      some (-4000000000000000, -400000000000000)
    ∧ codeTvwapWeight (decQuo (0 - minimumTimeWeight) (legacyNewDec 100)) (legacyNewDec 100)
        (legacyNewDec 100) = -400000000000000
    ∧ (-400000000000000 : ℤ) < 0
    ∧ specTvwapWeight (decQuo (0 - minimumTimeWeight) (legacyNewDec 100)) (legacyNewDec 100)
        (legacyNewDec 100) = minimumTimeWeight := by
  decide

/-- C4: the claim states that an error from a healthcheck GET is logged
only and that `healthchecksPing` always returns normally.  The code
closes `response.Body` on the `nil` response after a failed GET, a
nil-pointer dereference: with one configured URL whose GET fails the
function panics (modelled as an error), while it does return normally
when every GET succeeds. -/
theorem healthchecksPing_nil_dereference :
    healthchecksPing ["https://hc-ping.com/healthcheck-uuid"] (fun _ => false) =
      .error "runtime error: invalid memory address or nil pointer dereference"
    ∧ healthchecksPing ["https://hc-ping.com/healthcheck-uuid"] (fun _ => true) = .ok () :=
  ⟨rfl, rfl⟩

/-- C3: in every tick execution `previousVotePeriod` is set to the
current vote period exactly when the broadcast is reached and succeeds;
on every other path — validation failure, jail, chain-query failure,
`SetPrices` failure, the skip of an already-voted period, address-parse
failure or broadcast error — the state is unchanged, so the next block in
the same vote period retries. -/
theorem tick_previousVotePeriod_iff_broadcast (env : TickEnv) (st : TickState) :
    (tick env st).2.previousVotePeriod =
      (if tickBroadcastSuccess env st then tickVotePeriod env else st.previousVotePeriod)
    ∧ (tickBroadcastSuccess env st = false → (tick env st).2 = st) := by
  rcases env with ⟨bh, jr, pr, spe, va, bo, hu, hg⟩
  by_cases hbh : bh < 1
  · simp [tick, tickBroadcastSuccess, hbh]
  · cases jr with
    | error e => simp [tick, tickBroadcastSuccess, hbh]
    | ok jb =>
      cases jb with
      | true => simp [tick, tickBroadcastSuccess, hbh]
      | false =>
        cases pr with
        | error e => simp [tick, tickBroadcastSuccess, hbh]
        | ok params =>
          cases spe with
          | some e => simp [tick, tickBroadcastSuccess, hbh]
          | none =>
            by_cases hcv : currentVotePeriodOf bh params.votePeriod = st.previousVotePeriod
            · cases va <;> cases bo <;> simp [tick, tickBroadcastSuccess, hbh, hcv]
            · cases va with
              | error e => simp [tick, tickBroadcastSuccess, hbh, hcv]
              | ok u =>
                cases bo with
                | error e => simp [tick, tickBroadcastSuccess, hbh, hcv]
                | ok u2 =>
                  simp [tick, tickBroadcastSuccess, tickVotePeriod, hbh, hcv]

/-- Witness for C3: a concrete tick whose broadcast fails leaves the
state unchanged. -/
theorem tick_previousVotePeriod_iff_broadcast_witness :
    (tick ⟨5, .ok false, .ok ⟨3, []⟩, none, .ok (), .error "rpc error", [], fun _ => true⟩
      ⟨0⟩).2 = ⟨0⟩ :=
  (tick_previousVotePeriod_iff_broadcast _ _).2 (by decide)

theorem sorted_coinLt_of_sorted_coinLe {l : List (String × ℤ)}
    (hs : List.Sorted coinLe l) (hnd : (l.map Prod.fst).Nodup) : List.Sorted coinLt l := by
  have hne : l.Pairwise (fun a b => a.1 ≠ b.1) := List.pairwise_map.mp hnd
  exact (hs.and hne).imp (fun h => lt_of_le_of_ne h.1 h.2)

/-- C8: `GenerateExchangeRatesString` is a deterministic pure function of
the set of coins: two inputs holding the same denom/amount coins in any
order (denominations pairwise distinct, as on every valid `DecCoins`
value) render to byte-identical strings, and the rendered coins are
sorted ascending by denomination. -/
theorem generateExchangeRatesString_canonical (c1 c2 : List (String × ℤ))
    (hperm : c1.Perm c2) (hnodup : (c1.map Prod.fst).Nodup) :
    GenerateExchangeRatesString c1 = GenerateExchangeRatesString c2
    ∧ List.Sorted coinLe (sortCoins c1) := by
  have hs1 : List.Sorted coinLe (sortCoins c1) := List.sorted_insertionSort coinLe c1
  have hs2 : List.Sorted coinLe (sortCoins c2) := List.sorted_insertionSort coinLe c2
  have hp : (sortCoins c1).Perm (sortCoins c2) :=
    ((List.perm_insertionSort coinLe c1).trans hperm).trans
      (List.perm_insertionSort coinLe c2).symm
  have hnd1 : ((sortCoins c1).map Prod.fst).Nodup :=
    (((List.perm_insertionSort coinLe c1).map Prod.fst).nodup_iff).mpr hnodup
  have hnd2 : ((sortCoins c2).map Prod.fst).Nodup := by
    have h2 : (c2.map Prod.fst).Nodup := ((hperm.map Prod.fst).nodup_iff).mp hnodup
    exact (((List.perm_insertionSort coinLe c2).map Prod.fst).nodup_iff).mpr h2
  have heq : sortCoins c1 = sortCoins c2 :=
    List.eq_of_perm_of_sorted hp (sorted_coinLt_of_sorted_coinLe hs1 hnd1)
      (sorted_coinLt_of_sorted_coinLe hs2 hnd2)
  exact ⟨congrArg decCoinsString heq, hs1⟩

/-- Witness for C8: two orderings of the same two coins render
identically. -/
theorem generateExchangeRatesString_canonical_witness :
    GenerateExchangeRatesString [("uatom", 1500000000000000000), ("akii", 2000000000000000000)]
      = GenerateExchangeRatesString
          [("akii", 2000000000000000000), ("uatom", 1500000000000000000)] :=
  (generateExchangeRatesString_canonical _ _ (List.Perm.swap _ _ _) (by decide)).1

/-- C7: for every base with fewer than three observations
`StandardDeviation` reports neither a deviation nor a mean; with at
least three it reports the mean `sum / n` (`QuoInt64`) and the deviation
`ApproxSqrt` of the mean of squared deviations from that mean, in
`LegacyDec` arithmetic. -/
theorem standardDeviation_spec (prices : SMap (SMap ℤ)) (base : String) :
    ((obsFor prices base).length < 3 →
      lookupA (StandardDeviation prices).1 base = none ∧
      lookupA (StandardDeviation prices).2 base = none)
    ∧ (3 ≤ (obsFor prices base).length →
      lookupA (StandardDeviation prices).2 base =
        some (decQuoInt (obsFor prices base).sum ((obsFor prices base).length : ℤ))
      ∧ lookupA (StandardDeviation prices).1 base =
        some (approxSqrt (decQuoInt
          ((obsFor prices base).map (fun p =>
            decMul (p - decQuoInt (obsFor prices base).sum ((obsFor prices base).length : ℤ))
              (p - decQuoInt (obsFor prices base).sum ((obsFor prices base).length : ℤ)))).sum
          ((obsFor prices base).length : ℤ)))) := by
  have hnd : (sdBases prices).Nodup := innerKeys_nodup prices
  have hGm : ∀ x p, sdMeanEntry prices x = some p → p.1 = x := by
    intro x p hp
    simp only [sdMeanEntry] at hp
    split_ifs at hp
    cases hp
    rfl
  have hGd : ∀ x p, sdDevEntry prices x = some p → p.1 = x := by
    intro x p hp
    simp only [sdDevEntry] at hp
    split_ifs at hp
    cases hp
    rfl
  have hm := lookupA_filterMap_keyed (sdBases prices) (sdMeanEntry prices) hGm base hnd
  have hd := lookupA_filterMap_keyed (sdBases prices) (sdDevEntry prices) hGd base hnd
  constructor
  · intro hlt
    constructor
    · show lookupA ((sdBases prices).filterMap (sdDevEntry prices)) base = none
      rw [hd]
      split_ifs
      · simp only [sdDevEntry]
        rw [if_pos hlt]
        rfl
      · rfl
    · show lookupA ((sdBases prices).filterMap (sdMeanEntry prices)) base = none
      rw [hm]
      split_ifs
      · simp only [sdMeanEntry]
        rw [if_pos hlt]
        rfl
      · rfl
  · intro hge
    have hmem : base ∈ sdBases prices := by
      have hne : obsFor prices base ≠ [] := by
        intro h
        rw [h] at hge
        simp at hge
      obtain ⟨v, hv⟩ := List.exists_mem_of_ne_nil _ hne
      exact mem_innerKeys_of_mem_valuesFor hv
    constructor
    · show lookupA ((sdBases prices).filterMap (sdMeanEntry prices)) base = _
      rw [hm, if_pos hmem]
      simp only [sdMeanEntry]
      rw [if_neg (not_lt.mpr hge)]
      rfl
    · show lookupA ((sdBases prices).filterMap (sdDevEntry prices)) base = _
      rw [hd, if_pos hmem]
      simp only [sdDevEntry]
      rw [if_neg (not_lt.mpr hge)]
      rfl

/-- Witness for C7: three observations of ATOM yield the mean 2.0; a
single observation of KII yields no deviation entry. -/
theorem standardDeviation_spec_witness :
    lookupA (StandardDeviation
      [("binance", [("ATOM", 1000000000000000000), ("KII", 5)]),
       ("kraken", [("ATOM", 2000000000000000000)]),
       ("okx", [("ATOM", 3000000000000000000)])]).2 "ATOM" = some 2000000000000000000
    ∧ lookupA (StandardDeviation
      [("binance", [("ATOM", 1000000000000000000), ("KII", 5)]),
       ("kraken", [("ATOM", 2000000000000000000)]),
       ("okx", [("ATOM", 3000000000000000000)])]).1 "KII" = none := by
  constructor
  · have h := (standardDeviation_spec
      [("binance", [("ATOM", 1000000000000000000), ("KII", 5)]),
       ("kraken", [("ATOM", 2000000000000000000)]),
       ("okx", [("ATOM", 3000000000000000000)])] "ATOM").2 (by decide)
    rw [h.1]
    decide
  · exact ((standardDeviation_spec
      [("binance", [("ATOM", 1000000000000000000), ("KII", 5)]),
       ("kraken", [("ATOM", 2000000000000000000)]),
       ("okx", [("ATOM", 3000000000000000000)])] "KII").1 (by decide)).1

/-- Counterexample for C2: one configured pair ATOM/USDT under provider
"kraken" with chain denom `uatom` in the whitelist, but the provider's
creation fails: the required set built by `SetPrices` is empty, not
`{ATOM}` as the claim states, and the commit step reports no error even
though ATOM has no computed price (with the claimed set it would
error). -/
theorem requiredRates_exclude_failed_provider :
    requiredRatesList (fun _ => false) [("kraken", [⟨"ATOM", "USDT"⟩])] [("ATOM", "uatom")]
      ["uatom"] = []
    ∧ specRequiredRates [("kraken", [⟨"ATOM", "USDT"⟩])] [("ATOM", "uatom")] ["uatom"] = ["ATOM"]
    ∧ (setPricesCommit (requiredRatesList (fun _ => false) [("kraken", [⟨"ATOM", "USDT"⟩])]
        [("ATOM", "uatom")] ["uatom"]) [] [("KII", 5)]).1 = none
    ∧ (setPricesCommit (specRequiredRates [("kraken", [⟨"ATOM", "USDT"⟩])] [("ATOM", "uatom")]
        ["uatom"]) [] [("KII", 5)]).1.isSome = true := by
  decide

/-- C2 (amended): for every tick — whatever subset of providers obtained
an adapter, recorded by `providerOk` — the required set is exactly the
set of bases appearing in a pair of a provider whose adapter was
obtained (pairs of failed providers are skipped) and whose chain
denomination is whitelisted; and, once the computed prices are produced,
`SetPrices` errors iff some required base is missing from them, leaving
the stored prices unchanged on the error and storing the computed prices
otherwise. -/
theorem setPrices_requiredRates_spec (providerOk : String → Bool)
    (providerPairs : SMap (List CurrencyPair)) (cdm : SMap String) (whitelist : List String)
    (computed old : SMap ℤ) :
    (∀ b, b ∈ requiredRatesList providerOk providerPairs cdm whitelist ↔
      ((∃ pv ∈ providerPairs, providerOk pv.1 = true ∧ ∃ pr ∈ pv.2, pr.base = b) ∧
        whitelist.contains ((lookupA cdm b).getD "") = true))
    ∧ ((setPricesCommit (requiredRatesList providerOk providerPairs cdm whitelist)
          computed old).1.isSome = true ↔
        ∃ b ∈ requiredRatesList providerOk providerPairs cdm whitelist,
          lookupA computed b = none)
    ∧ ((setPricesCommit (requiredRatesList providerOk providerPairs cdm whitelist)
          computed old).1.isSome = true →
        (setPricesCommit (requiredRatesList providerOk providerPairs cdm whitelist)
          computed old).2 = old)
    ∧ ((setPricesCommit (requiredRatesList providerOk providerPairs cdm whitelist)
          computed old).1 = none →
        (setPricesCommit (requiredRatesList providerOk providerPairs cdm whitelist)
          computed old).2 = computed) := by
  refine ⟨?_, ?_, ?_, ?_⟩
  · intro b
    unfold requiredRatesList
    rw [List.mem_filter, List.mem_dedup, mem_foldr_append_if]
    constructor
    · rintro ⟨⟨pv, hpv, hok2, hb⟩, hw⟩
      rcases List.mem_map.mp hb with ⟨pr, hpr, hbase⟩
      exact ⟨⟨pv, hpv, hok2, pr, hpr, hbase⟩, hw⟩
    · rintro ⟨⟨pv, hpv, hok2, pr, hpr, hbase⟩, hw⟩
      exact ⟨⟨pv, hpv, hok2, List.mem_map.mpr ⟨pr, hpr, hbase⟩⟩, hw⟩
  · have hrw : (setPricesCommit (requiredRatesList providerOk providerPairs cdm whitelist)
        computed old).1.isSome =
        ((requiredRatesList providerOk providerPairs cdm whitelist).find?
          (fun b => (lookupA computed b).isNone)).isSome := by
      unfold setPricesCommit
      cases hf : (requiredRatesList providerOk providerPairs cdm whitelist).find?
          (fun b => (lookupA computed b).isNone) <;> simp [hf]
    rw [hrw, List.find?_isSome]
    simp [Option.isNone_iff_eq_none]
  · intro h
    unfold setPricesCommit at h ⊢
    cases hf : (requiredRatesList providerOk providerPairs cdm whitelist).find?
        (fun b => (lookupA computed b).isNone)
    · rw [hf] at h
      exact Bool.noConfusion h
    · rfl
  · intro h
    unfold setPricesCommit at h ⊢
    cases hf : (requiredRatesList providerOk providerPairs cdm whitelist).find?
        (fun b => (lookupA computed b).isNone)
    · rfl
    · rw [hf] at h
      exact Option.noConfusion h

/-- Witness for C2, at a mixed configuration: kraken's adapter was
obtained, binance's creation failed.  ATOM (kraken, whitelisted) is
required, KII (binance only, whitelisted) is not, and with no computed
price for ATOM the commit step errors. -/
theorem setPrices_requiredRates_spec_witness :
    "ATOM" ∈ requiredRatesList (fun s => s == "kraken")
      [("kraken", [⟨"ATOM", "USDT"⟩]), ("binance", [⟨"KII", "USDT"⟩])]
      [("ATOM", "uatom"), ("KII", "akii")] ["uatom", "akii"]
    ∧ "KII" ∉ requiredRatesList (fun s => s == "kraken")
      [("kraken", [⟨"ATOM", "USDT"⟩]), ("binance", [⟨"KII", "USDT"⟩])]
      [("ATOM", "uatom"), ("KII", "akii")] ["uatom", "akii"]
    ∧ (setPricesCommit (requiredRatesList (fun s => s == "kraken")
        [("kraken", [⟨"ATOM", "USDT"⟩]), ("binance", [⟨"KII", "USDT"⟩])]
        [("ATOM", "uatom"), ("KII", "akii")] ["uatom", "akii"]) [] [("KII", 5)]).1.isSome
      = true := by
  have h := setPrices_requiredRates_spec (fun s => s == "kraken")
    [("kraken", [⟨"ATOM", "USDT"⟩]), ("binance", [⟨"KII", "USDT"⟩])]
    [("ATOM", "uatom"), ("KII", "akii")] ["uatom", "akii"] [] [("KII", 5)]
  have hatom : "ATOM" ∈ requiredRatesList (fun s => s == "kraken")
      [("kraken", [⟨"ATOM", "USDT"⟩]), ("binance", [⟨"KII", "USDT"⟩])]
      [("ATOM", "uatom"), ("KII", "akii")] ["uatom", "akii"] :=
    (h.1 "ATOM").mpr ⟨⟨("kraken", [⟨"ATOM", "USDT"⟩]), by decide, by decide,
      ⟨"ATOM", "USDT"⟩, by decide, rfl⟩, by decide⟩
  refine ⟨hatom, ?_, ?_⟩
  · intro hmem
    exact (by decide :
      ¬ ((∃ pv ∈ [("kraken", [(⟨"ATOM", "USDT"⟩ : CurrencyPair)]),
            ("binance", [⟨"KII", "USDT"⟩])], (fun s => s == "kraken") pv.1 = true ∧
            ∃ pr ∈ pv.2, pr.base = "KII") ∧
          List.contains ["uatom", "akii"]
            ((lookupA [("ATOM", "uatom"), ("KII", "akii")] "KII").getD "") = true))
      ((h.1 "KII").mp hmem)
  · exact h.2.1.mpr ⟨"ATOM", hatom, rfl⟩

/-- A provider name is recorded in the store (as created or as failed). -/
def inStore {α : Type} (st : ProviderStore α) (n : String) : Prop :=
  (lookupA st.priceProviders n).isSome = true ∨ (lookupA st.failedProviders n).isSome = true

instance {α : Type} (st : ProviderStore α) (n : String) : Decidable (inStore st n) :=
  inferInstanceAs (Decidable (_ ∨ _))

/-- The store only ever records outcomes of `create` (`NewProvider`). -/
def storeConsistent {α : Type} (create : String → Except String α) (st : ProviderStore α) : Prop :=
  (∀ n a, lookupA st.priceProviders n = some a → create n = .ok a) ∧
  (∀ n e, lookupA st.failedProviders n = some e → ∃ msg, create n = .error msg)

theorem runProviderCalls_cons {α : Type} (create : String → Except String α)
    (st : ProviderStore α) (m : String) (rest : List String) :
    runProviderCalls create st (m :: rest) =
      (((getOrSetProvider create st m).1, (getOrSetProvider create st m).2.2) ::
        (runProviderCalls create (getOrSetProvider create st m).2.1 rest).1,
       (runProviderCalls create (getOrSetProvider create st m).2.1 rest).2) := rfl

theorem getOrSetProvider_no_attempt {α : Type} (create : String → Except String α)
    (st : ProviderStore α) (name : String) (h : inStore st name) :
    (getOrSetProvider create st name).2.2 = false ∧
    (getOrSetProvider create st name).2.1 = st := by
  unfold getOrSetProvider
  cases hf : lookupA st.failedProviders name with
  | some e => exact ⟨rfl, rfl⟩
  | none =>
    cases hp : lookupA st.priceProviders name with
    | some p => exact ⟨rfl, rfl⟩
    | none =>
      rcases h with h | h
      · rw [hp] at h
        exact absurd h (by simp)
      · rw [hf] at h
        exact absurd h (by simp)

theorem getOrSetProvider_in_after {α : Type} (create : String → Except String α)
    (st : ProviderStore α) (name : String) :
    inStore (getOrSetProvider create st name).2.1 name := by
  unfold getOrSetProvider
  cases hf : lookupA st.failedProviders name with
  | some e => exact Or.inr (by rw [hf]; rfl)
  | none =>
    cases hp : lookupA st.priceProviders name with
    | some p => exact Or.inl (by rw [hp]; rfl)
    | none =>
      cases hc : create name with
      | error e => exact Or.inr (by rw [lookupA_insertA_self]; rfl)
      | ok p => exact Or.inl (by rw [lookupA_insertA_self]; rfl)

theorem getOrSetProvider_mono {α : Type} (create : String → Except String α)
    (st : ProviderStore α) (name m : String) (h : inStore st m) :
    inStore (getOrSetProvider create st name).2.1 m := by
  unfold getOrSetProvider
  cases hf : lookupA st.failedProviders name with
  | some e => exact h
  | none =>
    cases hp : lookupA st.priceProviders name with
    | some p => exact h
    | none =>
      by_cases hnm : name = m
      · subst hnm
        cases hc : create name with
        | error e => exact Or.inr (by rw [lookupA_insertA_self]; rfl)
        | ok p => exact Or.inl (by rw [lookupA_insertA_self]; rfl)
      · cases hc : create name with
        | error e =>
          rcases h with h | h
          · exact Or.inl h
          · exact Or.inr (by rw [lookupA_insertA_ne _ _ _ hnm]; exact h)
        | ok p =>
          rcases h with h | h
          · exact Or.inl (by rw [lookupA_insertA_ne _ _ _ hnm]; exact h)
          · exact Or.inr h

theorem getOrSetProvider_preserves {α : Type} (create : String → Except String α)
    (st : ProviderStore α) (name : String) (h : storeConsistent create st) :
    storeConsistent create (getOrSetProvider create st name).2.1 := by
  unfold getOrSetProvider
  cases hf : lookupA st.failedProviders name with
  | some e => exact h
  | none =>
    cases hp : lookupA st.priceProviders name with
    | some p => exact h
    | none =>
      cases hc : create name with
      | error e =>
        refine ⟨h.1, ?_⟩
        intro n e2 hn
        by_cases hnm : name = n
        · subst hnm
          exact ⟨e, hc⟩
        · rw [lookupA_insertA_ne _ _ _ hnm] at hn
          exact h.2 n e2 hn
      | ok p =>
        refine ⟨?_, h.2⟩
        intro n a hn
        by_cases hnm : name = n
        · subst hnm
          rw [lookupA_insertA_self] at hn
          cases hn
          exact hc
        · rw [lookupA_insertA_ne _ _ _ hnm] at hn
          exact h.1 n a hn

theorem getOrSetProvider_result {α : Type} (create : String → Except String α)
    (st : ProviderStore α) (name : String) (h : storeConsistent create st) :
    (∀ a, create name = .ok a → (getOrSetProvider create st name).1 = .ok a) ∧
    (∀ e, create name = .error e → ∃ msg, (getOrSetProvider create st name).1 = .error msg) := by
  unfold getOrSetProvider
  cases hf : lookupA st.failedProviders name with
  | some e =>
    rcases h.2 name e hf with ⟨msg, hmsg⟩
    constructor
    · intro a ha
      rw [ha] at hmsg
      cases hmsg
    · intro e2 _
      exact ⟨_, rfl⟩
  | none =>
    cases hp : lookupA st.priceProviders name with
    | some p =>
      have hcp : create name = .ok p := h.1 name p hp
      constructor
      · intro a ha
        rw [hcp] at ha
        cases ha
        rfl
      · intro e2 he2
        rw [hcp] at he2
        cases he2
    | none =>
      constructor
      · intro a ha
        rw [ha]
      · intro e2 he2
        rw [he2]
        exact ⟨e2, rfl⟩

theorem runProviderCalls_results {α : Type} (create : String → Except String α)
    (names : List String) :
    ∀ (st : ProviderStore α), storeConsistent create st →
      ∀ cr ∈ names.zip (runProviderCalls create st names).1,
        (∀ a, create cr.1 = .ok a → cr.2.1 = .ok a) ∧
        (∀ e, create cr.1 = .error e → ∃ msg, cr.2.1 = .error msg) := by
  induction names with
  | nil => intro st _ cr hcr; simp [runProviderCalls] at hcr
  | cons m rest ih =>
    intro st h cr hcr
    rw [runProviderCalls_cons, List.zip_cons_cons] at hcr
    rcases List.mem_cons.mp hcr with hh | ht
    · subst hh
      exact getOrSetProvider_result create st m h
    · exact ih (getOrSetProvider create st m).2.1
        (getOrSetProvider_preserves create st m h) cr ht

theorem runProviderCalls_attempts {α : Type} (create : String → Except String α)
    (names : List String) (n : String) :
    ∀ (st : ProviderStore α),
      ((names.zip (runProviderCalls create st names).1).filter
        (fun cr => cr.1 == n && cr.2.2)).length ≤ (if inStore st n then 0 else 1) := by
  induction names with
  | nil =>
    intro st
    simp [runProviderCalls]
  | cons m rest ih =>
    intro st
    rw [runProviderCalls_cons, List.zip_cons_cons, List.filter_cons]
    by_cases hm : m = n
    · subst hm
      by_cases hin : inStore st m
      · have hna := getOrSetProvider_no_attempt create st m hin
        rw [if_pos hin]
        have hc : ((m, ((getOrSetProvider create st m).1, (getOrSetProvider create st m).2.2)).1
            == m && (m, ((getOrSetProvider create st m).1,
              (getOrSetProvider create st m).2.2)).2.2) = false := by
          simp [hna.1]
        rw [hc, if_neg (by simp), hna.2]
        have ht := ih st
        rw [if_pos hin] at ht
        exact ht
      · rw [if_neg hin]
        have ht := ih (getOrSetProvider create st m).2.1
        rw [if_pos (getOrSetProvider_in_after create st m)] at ht
        by_cases hc : ((m, ((getOrSetProvider create st m).1,
            (getOrSetProvider create st m).2.2)).1 == m && (m, ((getOrSetProvider create st m).1,
              (getOrSetProvider create st m).2.2)).2.2) = true
        · rw [if_pos hc]
          simpa using ht
        · rw [if_neg hc]
          omega
    · have hc : ((m, ((getOrSetProvider create st m).1, (getOrSetProvider create st m).2.2)).1
          == n && (m, ((getOrSetProvider create st m).1,
            (getOrSetProvider create st m).2.2)).2.2) = false := by
        simp [hm]
      rw [hc, if_neg (by simp)]
      have ht := ih (getOrSetProvider create st m).2.1
      by_cases hin : inStore st n
      · rw [if_pos hin]
        rw [if_pos (getOrSetProvider_mono create st m n hin)] at ht
        exact ht
      · rw [if_neg hin]
        split_ifs at ht <;> omega

/-- C9: over any sequence of `getOrSetProvider` calls starting from the
fresh oracle (empty `priceProviders` and `failedProviders`),
`NewProvider` runs at most once per provider name; when creation
succeeds, every call for that name (the first included) returns the same
cached adapter; when creation fails, every call for that name returns an
error (the later ones without a new creation attempt, by the at-most-once
bound). -/
theorem getOrSetProvider_once_per_process {α : Type} (create : String → Except String α)
    (names : List String) (n : String) :
    ((names.zip (runProviderCalls create ⟨[], []⟩ names).1).filter
        (fun cr => cr.1 == n && cr.2.2)).length ≤ 1
    ∧ (∀ cr ∈ names.zip (runProviderCalls create ⟨[], []⟩ names).1,
        (∀ a, create cr.1 = .ok a → cr.2.1 = .ok a) ∧
        (∀ e, create cr.1 = .error e → ∃ msg, cr.2.1 = .error msg)) := by
  constructor
  · have h := runProviderCalls_attempts create names n (⟨[], []⟩ : ProviderStore α)
    have hni : ¬ inStore (⟨[], []⟩ : ProviderStore α) n := by
      unfold inStore
      simp [lookupA]
    rw [if_neg hni] at h
    exact h
  · refine runProviderCalls_results create names ⟨[], []⟩ ⟨?_, ?_⟩
    · intro n2 a h2
      simp [lookupA] at h2
    · intro n2 e h2
      simp [lookupA] at h2

/-- Witness for C9: two calls for the same provider, whose creation
succeeds with adapter `7`; the second call returns the cached adapter. -/
theorem getOrSetProvider_once_per_process_witness :
    ((["binance", "binance"].zip (runProviderCalls (fun _ => Except.ok 7)
        (⟨[], []⟩ : ProviderStore ℕ) ["binance", "binance"]).1).filter
      (fun cr => cr.1 == "binance" && cr.2.2)).length ≤ 1
    ∧ ("binance", ((Except.ok 7 : Except String ℕ), false)).2.1 = Except.ok 7 := by
  constructor
  · exact (getOrSetProvider_once_per_process (fun _ => Except.ok 7)
      ["binance", "binance"] "binance").1
  · exact ((getOrSetProvider_once_per_process (fun _ => Except.ok 7)
      ["binance", "binance"] "binance").2
        ("binance", (Except.ok 7, false)) (List.Mem.tail _ (List.mem_cons_self _ _))).1 7 rfl

/-! TVWAP helper lemmas. -/

theorem sortCandles_perm (cp : List CandlePrice) : (sortCandles cp).Perm cp :=
  List.perm_insertionSort candleLe cp

theorem sortCandles_eq_nil_iff {cp : List CandlePrice} : sortCandles cp = [] ↔ cp = [] := by
  constructor
  · intro h
    have := sortCandles_perm cp
    rw [h] at this
    exact (List.Perm.nil_eq this).symm
  · intro h
    rw [h]
    rfl

theorem mem_sortCandles {cp : List CandlePrice} {c : CandlePrice} :
    c ∈ sortCandles cp ↔ c ∈ cp :=
  (sortCandles_perm cp).mem_iff

theorem tvwap_foldl_stale (now timePeriod period weightUnit : ℤ) :
    ∀ (cs : List CandlePrice) (acc : ℤ × ℤ), (∀ c ∈ cs, c.timeStamp ≤ timePeriod) →
      cs.foldl (tvwapStep now timePeriod period weightUnit) acc = acc := by
  intro cs
  induction cs with
  | nil => intro acc _; rfl
  | cons c t ih =>
    intro acc h
    rw [List.foldl_cons]
    have hstep : tvwapStep now timePeriod period weightUnit acc c = acc := by
      unfold tvwapStep
      rw [if_neg (not_lt.mpr (h c (List.mem_cons_self c t)))]
    rw [hstep]
    exact ih acc (fun c2 hc2 => h c2 (List.mem_cons.mpr (Or.inr hc2)))

theorem tvwapPairSums_stale (now timePeriod : ℤ) (cp : List CandlePrice)
    (hne : cp ≠ []) (hold : ∀ c ∈ cp, c.timeStamp ≤ timePeriod) :
    tvwapPairSums now timePeriod cp = .ok (0, 0) := by
  unfold tvwapPairSums
  cases hs : sortCandles cp with
  | nil => exact absurd (sortCandles_eq_nil_iff.mp hs) hne
  | cons c0 rest =>
    have hall : ∀ c ∈ c0 :: rest, c.timeStamp ≤ timePeriod := by
      intro c hc
      exact hold c (mem_sortCandles.mp (hs ▸ hc))
    show Except.ok ((c0 :: rest).foldl
        (tvwapStep now timePeriod (legacyNewDec (now - c0.timeStamp))
          (if legacyNewDec (now - c0.timeStamp) = 0 then 0 - minimumTimeWeight
           else decQuo (0 - minimumTimeWeight) (legacyNewDec (now - c0.timeStamp)))) (0, 0)) =
      Except.ok (0, 0)
    rw [tvwap_foldl_stale _ _ _ _ _ _ hall]

theorem tvwapPairSums_isOk_iff (now timePeriod : ℤ) (cp : List CandlePrice) :
    (tvwapPairSums now timePeriod cp).isOk = true ↔ cp ≠ [] := by
  unfold tvwapPairSums
  cases hs : sortCandles cp with
  | nil =>
    simp only [Except.isOk, Except.toBool]
    constructor
    · intro h; cases h
    · intro h; exact absurd (sortCandles_eq_nil_iff.mp hs) h
  | cons c0 rest =>
    simp only [Except.isOk, Except.toBool]
    constructor
    · intro _ h
      rw [h] at hs
      cases hs
    · intro _
      trivial

theorem tvwapSums_stale (now timePeriod : ℤ) (prices : AggCandles) (base : String)
    (hne : ∀ l ∈ candleListsFor prices base, l ≠ [])
    (hold : ∀ l ∈ candleListsFor prices base, ∀ c ∈ l, c.timeStamp ≤ timePeriod) :
    tvwapSums now timePeriod prices base = .ok (0, 0) := by
  unfold tvwapSums
  have hm := mapME_ok_of_forall (tvwapPairSums now timePeriod) (fun _ => ((0 : ℤ), (0 : ℤ)))
    (candleListsFor prices base)
    (fun l hl => tvwapPairSums_stale now timePeriod l (hne l hl) (hold l hl))
  rw [hm]
  have hgen : ∀ (l : List (List CandlePrice)) (acc : ℤ × ℤ),
      (l.map (fun _ => ((0 : ℤ), (0 : ℤ)))).foldl (fun a p => (a.1 + p.1, a.2 + p.2)) acc = acc := by
    intro l
    induction l with
    | nil => intro acc; rfl
    | cons h t ih =>
      intro acc
      rw [List.map_cons, List.foldl_cons]
      have h0 : ((acc.1 + 0, acc.2 + 0) : ℤ × ℤ) = acc := by simp
      rw [h0]
      exact ih acc
  show Except.ok (((candleListsFor prices base).map (fun _ => ((0 : ℤ), (0 : ℤ)))).foldl
      (fun a p => (a.1 + p.1, a.2 + p.2)) (0, 0)) = Except.ok (0, 0)
  rw [hgen]

theorem vwapList_zero_entries (bases : List String) :
    vwapList (bases.map (fun b => (b, ((0 : ℤ), (0 : ℤ))))) = [] := by
  induction bases with
  | nil => rfl
  | cons h t ih =>
    unfold vwapList at ih ⊢
    rw [List.map_cons, List.filterMap_cons_none]
    · exact ih
    · simp

theorem lookupA_mem {α : Type} {m : SMap α} {k : String} {v : α}
    (h : lookupA m k = some v) : (k, v) ∈ m := by
  induction m with
  | nil => cases h
  | cons e t ih =>
    by_cases he : e.1 = k
    · have hself := lookupA_cons_self e t
      rw [he] at hself
      rw [hself] at h
      cases h
      have : e = (e.1, e.2) := rfl
      rw [← he]
      exact List.mem_cons.mpr (Or.inl rfl)
    · rw [lookupA_cons_ne e t he] at h
      exact List.mem_cons.mpr (Or.inr (ih h))

theorem forall₂_keyed_inv {γ : Type} (f : String → Except String (String × γ))
    (F : String → Except String γ)
    (hf : ∀ b p, f b = .ok p → p.1 = b ∧ F b = .ok p.2) :
    ∀ {bs : List String} {sums : List (String × γ)},
      List.Forall₂ (fun x y => f x = .ok y) bs sums →
      sums.map Prod.fst = bs ∧ ∀ p ∈ sums, F p.1 = .ok p.2 := by
  intro bs sums h
  induction h with
  | nil =>
    refine ⟨rfl, ?_⟩
    intro p hp
    simp at hp
  | @cons b y bs2 sums2 hxy htail ih =>
    obtain ⟨hy1, hy2⟩ := hf b y hxy
    refine ⟨by simp [ih.1, hy1], ?_⟩
    intro p hp
    rcases List.mem_cons.mp hp with hph | hpt
    · subst hph
      rw [hy1]
      exact hy2
    · exact ih.2 p hpt

/-- C6: with well-formed per-pair candle lists (non-empty, as stored by
`SetProviderTickerPricesAndCandles` from a provider response), if every
candle is as old as the cutoff `timePeriod` (i.e. older than
`now − 5min`) then `ComputeTVWAP` returns an empty result and no error;
and in general (stale or not) any base whose accumulated volume sum is
zero is omitted from a successful result rather than divided by. -/
theorem computeTVWAP_stale_empty (now timePeriod : ℤ) (prices : AggCandles)
    (hne : ∀ pv ∈ prices, ∀ e ∈ pv.2, e.2 ≠ ([] : List CandlePrice)) :
    ((∀ pv ∈ prices, ∀ e ∈ pv.2, ∀ c ∈ e.2, c.timeStamp ≤ timePeriod) →
      ComputeTVWAP now timePeriod prices = .ok [])
    ∧ (∀ res base w, ComputeTVWAP now timePeriod prices = .ok res →
        tvwapSums now timePeriod prices base = .ok (w, 0) →
        lookupA res base = none) := by
  constructor
  · intro hold
    unfold ComputeTVWAP
    have hALL : ∀ b ∈ tvwapBases prices,
        (fun b => match tvwapSums now timePeriod prices b with
         | .error e => .error e
         | .ok s => Except.ok (b, s)) b =
          Except.ok ((fun b => (b, ((0 : ℤ), (0 : ℤ)))) b) := by
      intro b _
      have hne2 : ∀ l ∈ candleListsFor prices b, l ≠ [] := by
        intro l hl
        rcases mem_valuesFor.mp hl with ⟨pv, hpv, e, he, _, hv⟩
        subst hv
        exact hne pv hpv e he
      have hold2 : ∀ l ∈ candleListsFor prices b, ∀ c ∈ l, c.timeStamp ≤ timePeriod := by
        intro l hl c hc
        rcases mem_valuesFor.mp hl with ⟨pv, hpv, e, he, _, hv⟩
        subst hv
        exact hold pv hpv e he c hc
      have hs := tvwapSums_stale now timePeriod prices b hne2 hold2
      simp only
      rw [hs]
    have hm := mapME_ok_of_forall
      (fun b => match tvwapSums now timePeriod prices b with
       | .error e => .error e
       | .ok s => Except.ok (b, s))
      (fun b => (b, ((0 : ℤ), (0 : ℤ)))) (tvwapBases prices) hALL
    rw [hm]
    show Except.ok (vwapList ((tvwapBases prices).map (fun b => (b, ((0 : ℤ), (0 : ℤ)))))) =
      Except.ok []
    rw [vwapList_zero_entries]
  · intro res base w hok hsum
    unfold ComputeTVWAP at hok
    cases hm : mapME
        (fun b => match tvwapSums now timePeriod prices b with
         | .error e => .error e
         | .ok s => Except.ok (b, s)) (tvwapBases prices) with
    | error e =>
      rw [hm] at hok
      cases hok
    | ok sums =>
      rw [hm] at hok
      cases hok
      have hf : ∀ b p, (match tvwapSums now timePeriod prices b with
          | Except.error e => Except.error e
          | Except.ok s => Except.ok (b, s)) = Except.ok p →
            p.1 = b ∧ tvwapSums now timePeriod prices b = .ok p.2 := by
        intro b p hbp
        cases hFb : tvwapSums now timePeriod prices b with
        | error e =>
          rw [hFb] at hbp
          exact Except.noConfusion hbp
        | ok s =>
          rw [hFb] at hbp
          injection hbp with h2
          cases h2
          exact ⟨rfl, rfl⟩
      obtain ⟨hkeys, hvals⟩ := forall₂_keyed_inv _ (tvwapSums now timePeriod prices) hf
        (mapME_ok_forall₂ hm)
      have hnd : (sums.map Prod.fst).Nodup := by
        rw [hkeys]
        exact innerKeys_nodup prices
      rw [lookupA_vwapList sums base hnd]
      cases hl : lookupA sums base with
      | none => rfl
      | some s =>
        have hv := hvals (base, s) (lookupA_mem hl)
        have hs2 : s = (w, 0) := by
          rw [hsum] at hv
          injection hv with h2
          exact h2.symm
        subst hs2
        simp

/-- Witness for C6: one provider, one base, one candle older than the
cutoff — the TVWAP result is empty with no error. -/
theorem computeTVWAP_stale_empty_witness :
    ComputeTVWAP 1000 700
      [("okx", [("ATOM", [⟨1000000000000000000, 1000000000000000000, 10⟩])])] = .ok [] :=
  (computeTVWAP_stale_empty 1000 700
    [("okx", [("ATOM", [⟨1000000000000000000, 1000000000000000000, 10⟩])])]
    (by decide)).1 (by decide)

/-- C10: `SetProviderTickerPricesAndCandles` stores an empty candle list
as is (reporting success even when the ticker is absent, because the
candle key exists); `ComputeTVWAP` indexes `cp[0]` of such a list, which
panics (an out-of-range index, modelled as an error); it runs without
error exactly when every stored candle list is non-empty. -/
theorem computeTVWAP_empty_candle_panics :
    (∀ (providerName : String) (pp : AggPrices) (pc : AggCandles)
        (prices : SMap TickerPrice) (candles : SMap (List CandlePrice)) (pair : CurrencyPair),
      lookupA candles (pairString pair) = some ([] : List CandlePrice) →
        (∃ inner, lookupA (SetProviderTickerPricesAndCandles providerName pp pc prices candles
            pair).2.1 providerName = some inner ∧ lookupA inner pair.base = some [])
        ∧ (SetProviderTickerPricesAndCandles providerName pp pc prices candles pair).2.2 = true)
    ∧ (∀ (now timePeriod : ℤ) (prices : AggCandles),
        (∃ pv ∈ prices, ∃ e ∈ pv.2, e.2 = ([] : List CandlePrice)) →
        (ComputeTVWAP now timePeriod prices).isOk = false)
    ∧ (∀ (now timePeriod : ℤ) (prices : AggCandles),
        (∀ pv ∈ prices, ∀ e ∈ pv.2, e.2 ≠ ([] : List CandlePrice)) →
        (ComputeTVWAP now timePeriod prices).isOk = true) := by
  refine ⟨?_, ?_, ?_⟩
  · intro providerName pp pc prices candles pair hc
    cases ht : lookupA prices (pairString pair) with
    | none =>
      simp only [SetProviderTickerPricesAndCandles, hc, ht]
      exact ⟨⟨_, lookupA_insertA_self _ _ _, lookupA_insertA_self _ _ _⟩, by simp⟩
    | some t =>
      simp only [SetProviderTickerPricesAndCandles, hc, ht]
      exact ⟨⟨_, lookupA_insertA_self _ _ _, lookupA_insertA_self _ _ _⟩, by simp⟩
  · rintro now timePeriod prices ⟨pv, hpv, e, he, hv⟩
    have hmem : ([] : List CandlePrice) ∈ candleListsFor prices e.1 :=
      mem_valuesFor.mpr ⟨pv, hpv, e, he, rfl, hv⟩
    have hpe : (tvwapPairSums now timePeriod ([] : List CandlePrice)).isOk = false := rfl
    have hms : (mapME (tvwapPairSums now timePeriod) (candleListsFor prices e.1)).isOk
        = false := by
      cases hx : (mapME (tvwapPairSums now timePeriod) (candleListsFor prices e.1)).isOk
      · rfl
      · have h2 := (mapME_isOk _ _).mp hx ([] : List CandlePrice) hmem
        rw [hpe] at h2
        exact Bool.noConfusion h2
    have hts : (tvwapSums now timePeriod prices e.1).isOk = false := by
      unfold tvwapSums
      cases hmm2 : mapME (tvwapPairSums now timePeriod) (candleListsFor prices e.1) with
      | error e2 => rfl
      | ok sums =>
        rw [hmm2] at hms
        exact Bool.noConfusion hms
    have hbase : e.1 ∈ tvwapBases prices := mem_innerKeys.mpr ⟨pv, hpv, e, he, rfl⟩
    unfold ComputeTVWAP
    cases hm : mapME
        (fun b => match tvwapSums now timePeriod prices b with
         | .error e2 => .error e2
         | .ok s => Except.ok (b, s)) (tvwapBases prices) with
    | error e2 => rfl
    | ok sums =>
      exfalso
      have hel := (mapME_isOk _ _).mp (by rw [hm]; rfl) e.1 hbase
      simp only at hel
      cases hts2 : tvwapSums now timePeriod prices e.1 with
      | error e3 =>
        rw [hts2] at hel
        exact Bool.noConfusion hel
      | ok s =>
        rw [hts2] at hts
        exact Bool.noConfusion hts
  · intro now timePeriod prices hne
    have hok : ∀ b ∈ tvwapBases prices,
        ((fun b => match tvwapSums now timePeriod prices b with
          | .error e2 => (Except.error e2 : Except String (String × ℤ × ℤ))
          | .ok s => Except.ok (b, s)) b).isOk = true := by
      intro b _
      have hts : (tvwapSums now timePeriod prices b).isOk = true := by
        unfold tvwapSums
        have hall : ∀ l ∈ candleListsFor prices b,
            (tvwapPairSums now timePeriod l).isOk = true := by
          intro l hl
          rcases mem_valuesFor.mp hl with ⟨pv, hpv, e, he, _, hv⟩
          subst hv
          exact (tvwapPairSums_isOk_iff now timePeriod e.2).mpr (hne pv hpv e he)
        have hmok := (mapME_isOk (tvwapPairSums now timePeriod)
          (candleListsFor prices b)).mpr hall
        cases hmm2 : mapME (tvwapPairSums now timePeriod) (candleListsFor prices b) with
        | error e2 =>
          rw [hmm2] at hmok
          exact Bool.noConfusion hmok
        | ok sums => rfl
      simp only
      cases hts2 : tvwapSums now timePeriod prices b with
      | error e2 =>
        rw [hts2] at hts
        exact Bool.noConfusion hts
      | ok s => rfl
    have hmo := (mapME_isOk _ _).mpr hok
    unfold ComputeTVWAP
    cases hm : mapME
        (fun b => match tvwapSums now timePeriod prices b with
         | .error e2 => .error e2
         | .ok s => Except.ok (b, s)) (tvwapBases prices) with
    | error e2 =>
      rw [hm] at hmo
      exact Bool.noConfusion hmo
    | ok sums => rfl

/-- Witness for C10: an aggregate holding an empty candle list makes
`ComputeTVWAP` fail; with the list non-empty it succeeds; and the
merge step stores an empty candle list, reporting success with no
ticker present. -/
theorem computeTVWAP_empty_candle_panics_witness :
    (ComputeTVWAP 1000 700 [("okx", [("ATOM", ([] : List CandlePrice))])]).isOk = false
    ∧ (ComputeTVWAP 1000 700 [("okx", [("ATOM", [⟨5, 5, 900⟩])])]).isOk = true
    ∧ (SetProviderTickerPricesAndCandles "okx" [] [] []
        [("ATOMUSDT", ([] : List CandlePrice))] ⟨"ATOM", "USDT"⟩).2.2 = true := by
  refine ⟨?_, ?_, ?_⟩
  · exact computeTVWAP_empty_candle_panics.2.1 1000 700 _
      ⟨("okx", [("ATOM", [])]), List.mem_cons_self _ _,
        ("ATOM", []), List.mem_cons_self _ _, rfl⟩
  · exact computeTVWAP_empty_candle_panics.2.2 1000 700 _ (by decide)
  · exact (computeTVWAP_empty_candle_panics.1 "okx" [] [] []
      [("ATOMUSDT", [])] ⟨"ATOM", "USDT"⟩ (by decide)).2

/-- Counterexample for C5: one provider submits a single ticker for base
B with price 1.5 and the smallest positive volume `10⁻¹⁸` (volumes
non-negative, one positive — the claim's hypotheses hold).  `Mul` rounds
the weighted price `1.5·10⁻¹⁸` to `2·10⁻¹⁸` (ties to even), and the
returned VWAP is `2.0`, strictly above the maximum submitted price
`1.5`: the convex-combination bound fails as claimed. -/
theorem computeVWAP_rounding_exceeds_max :
    lookupA (ComputeVWAP [("p", [("B", ⟨1500000000000000000, 1⟩)])]) "B" =
      some 2000000000000000000
    ∧ (1500000000000000000 : ℤ) < 2000000000000000000 := by
  decide

theorem sum_exact_products (l : List TickerPrice)
    (hexact : ∀ t ∈ l, t.price * t.volume % decPrec = 0) :
    (l.map (fun t => decMul t.price t.volume)).sum * decPrec =
      (l.map (fun t => t.price * t.volume)).sum := by
  induction l with
  | nil => simp
  | cons t ts ih =>
    simp only [List.map_cons, List.sum_cons, add_mul]
    rw [ih (fun x hx => hexact x (List.mem_cons.mpr (Or.inr hx)))]
    have hd : decPrec ∣ t.price * t.volume :=
      Int.dvd_of_emod_eq_zero (hexact t (List.mem_cons_self t ts))
    rw [show decMul t.price t.volume = t.price * t.volume / decPrec from
      chopRound_of_dvd hd, Int.ediv_mul_cancel hd]

theorem sum_price_volume_bounds (l : List TickerPrice) (m M : ℤ)
    (hb : ∀ t ∈ l, m ≤ t.price ∧ t.price ≤ M)
    (hv : ∀ t ∈ l, 0 ≤ t.volume) :
    m * (l.map (fun t => t.volume)).sum ≤ (l.map (fun t => t.price * t.volume)).sum ∧
    (l.map (fun t => t.price * t.volume)).sum ≤ M * (l.map (fun t => t.volume)).sum := by
  induction l with
  | nil => simp
  | cons t ts ih =>
    simp only [List.map_cons, List.sum_cons, mul_add]
    have h1 := ih (fun x hx => hb x (List.mem_cons.mpr (Or.inr hx)))
      (fun x hx => hv x (List.mem_cons.mpr (Or.inr hx)))
    have hm1 : m * t.volume ≤ t.price * t.volume :=
      mul_le_mul_of_nonneg_right (hb t (List.mem_cons_self t ts)).1
        (hv t (List.mem_cons_self t ts))
    have hM1 : t.price * t.volume ≤ M * t.volume :=
      mul_le_mul_of_nonneg_right (hb t (List.mem_cons_self t ts)).2
        (hv t (List.mem_cons_self t ts))
    exact ⟨by linarith [h1.1], by linarith [h1.2]⟩

theorem sum_products_nonneg (l : List TickerPrice)
    (hp : ∀ t ∈ l, 0 ≤ t.price) (hv : ∀ t ∈ l, 0 ≤ t.volume) :
    0 ≤ (l.map (fun t => t.price * t.volume)).sum := by
  induction l with
  | nil => simp
  | cons t ts ih =>
    simp only [List.map_cons, List.sum_cons]
    have h1 := ih (fun x hx => hp x (List.mem_cons.mpr (Or.inr hx)))
      (fun x hx => hv x (List.mem_cons.mpr (Or.inr hx)))
    have h2 : 0 ≤ t.price * t.volume :=
      mul_nonneg (hp t (List.mem_cons_self t ts)) (hv t (List.mem_cons_self t ts))
    linarith

/-- C5 (amended): for a valid aggregate (prices and volumes
non-negative) in which some provider reports base B with positive
volume, `ComputeVWAP` returns for B the `Quo` of `Σ Mul(price, volume)`
by `Σ volume`; when additionally every product `price·volume` is exactly
representable at 18 decimals (no `Mul` rounding), that value lies
between every lower bound `m` and upper bound `M` of the submitted
prices — in particular between their minimum and maximum. -/
theorem computeVWAP_convex_bounds (prices : AggPrices) (B : String) (m M : ℤ)
    (hbound : ∀ t ∈ tickersFor prices B, m ≤ t.price ∧ t.price ≤ M)
    (hpr : ∀ t ∈ tickersFor prices B, 0 ≤ t.price)
    (hvol : ∀ t ∈ tickersFor prices B, 0 ≤ t.volume)
    (hpos : ∃ t ∈ tickersFor prices B, 0 < t.volume)
    (hexact : ∀ t ∈ tickersFor prices B, t.price * t.volume % decPrec = 0) :
    lookupA (ComputeVWAP prices) B =
      some (decQuo (weightedPriceSum prices B) (volumeSumOf prices B))
    ∧ m ≤ decQuo (weightedPriceSum prices B) (volumeSumOf prices B)
    ∧ decQuo (weightedPriceSum prices B) (volumeSumOf prices B) ≤ M := by
  obtain ⟨t0, ht0, hv0⟩ := hpos
  have hdp : (0 : ℤ) < decPrec := by norm_num [decPrec]
  have hV : 0 < volumeSumOf prices B := by
    have hle : t0.volume ≤ ((tickersFor prices B).map (fun t => t.volume)).sum := by
      refine List.single_le_sum ?_ _ (List.mem_map.mpr ⟨t0, ht0, rfl⟩)
      intro x hx
      rcases List.mem_map.mp hx with ⟨t, ht, hxe⟩
      subst hxe
      exact hvol t ht
    exact lt_of_lt_of_le hv0 hle
  have hWd : weightedPriceSum prices B * decPrec =
      ((tickersFor prices B).map (fun t => t.price * t.volume)).sum :=
    sum_exact_products _ hexact
  have hsb := sum_price_volume_bounds _ m M hbound hvol
  have hSnn := sum_products_nonneg _ hpr hvol
  have hWnn : 0 ≤ weightedPriceSum prices B := by nlinarith
  have hnum : 0 ≤ weightedPriceSum prices B * decPrec * decPrec :=
    mul_nonneg (mul_nonneg hWnn hdp.le) hdp.le
  have htd : Int.tdiv (weightedPriceSum prices B * decPrec * decPrec) (volumeSumOf prices B) =
      weightedPriceSum prices B * decPrec * decPrec / volumeSumOf prices B :=
    Int.tdiv_eq_ediv hnum hV.le
  have hT0 : 0 ≤ weightedPriceSum prices B * decPrec * decPrec / volumeSumOf prices B :=
    Int.ediv_nonneg hnum hV.le
  have hlow : m * decPrec ≤
      weightedPriceSum prices B * decPrec * decPrec / volumeSumOf prices B := by
    rw [Int.le_ediv_iff_mul_le hV]
    have h1 : m * volumeSumOf prices B ≤ weightedPriceSum prices B * decPrec := by
      rw [hWd]
      exact hsb.1
    nlinarith
  have hhigh : weightedPriceSum prices B * decPrec * decPrec / volumeSumOf prices B ≤
      M * decPrec := by
    have h1 : weightedPriceSum prices B * decPrec ≤ M * volumeSumOf prices B := by
      rw [hWd]
      exact hsb.2
    have h2 : weightedPriceSum prices B * decPrec * decPrec ≤
        M * decPrec * volumeSumOf prices B := by nlinarith
    calc weightedPriceSum prices B * decPrec * decPrec / volumeSumOf prices B
        ≤ M * decPrec * volumeSumOf prices B / volumeSumOf prices B :=
          Int.ediv_le_ediv hV h2
      _ = M * decPrec := Int.mul_ediv_cancel _ (ne_of_gt hV)
  have hmain : lookupA (ComputeVWAP prices) B =
      some (decQuo (weightedPriceSum prices B) (volumeSumOf prices B)) := by
    have hmemB : B ∈ vwapBases prices := by
      rcases mem_valuesFor.mp ht0 with ⟨pv, hpv, e, he, hk, _⟩
      exact mem_innerKeys.mpr ⟨pv, hpv, e, he, hk⟩
    have hnd : (((vwapBases prices).map
        (fun b => (b, weightedPriceSum prices b, volumeSumOf prices b))).map Prod.fst).Nodup := by
      rw [List.map_map]
      have : (Prod.fst ∘ fun b => (b, weightedPriceSum prices b, volumeSumOf prices b)) =
          fun b => b := rfl
      rw [this]
      simpa using innerKeys_nodup prices
    have hlk := lookupA_map_key (vwapBases prices)
      (fun b => (weightedPriceSum prices b, volumeSumOf prices b)) hmemB
    unfold ComputeVWAP
    rw [lookupA_vwapList _ B hnd, hlk]
    show (if volumeSumOf prices B = 0 then none
        else some (decQuo (weightedPriceSum prices B) (volumeSumOf prices B))) =
      some (decQuo (weightedPriceSum prices B) (volumeSumOf prices B))
    rw [if_neg (ne_of_gt hV)]
  refine ⟨hmain, ?_, ?_⟩
  · show m ≤ chopRound (Int.tdiv
      (weightedPriceSum prices B * decPrec * decPrec) (volumeSumOf prices B))
    rw [htd]
    exact le_chopRound_of_mul_le hT0 hlow
  · show chopRound (Int.tdiv
      (weightedPriceSum prices B * decPrec * decPrec) (volumeSumOf prices B)) ≤ M
    rw [htd]
    exact chopRound_le_of_le_mul hT0 hhigh

/-- Witness for C5: tickers (10, 100) and (12, 300) — the result exists,
lies in [10, 12], and equals exactly 11.5. -/
theorem computeVWAP_convex_bounds_witness :
    (lookupA (ComputeVWAP [("provA", [("ATOM", ⟨10000000000000000000, 100000000000000000000⟩)]),
        ("provB", [("ATOM", ⟨12000000000000000000, 300000000000000000000⟩)])]) "ATOM" =
      some (decQuo (weightedPriceSum [("provA", [("ATOM", ⟨10000000000000000000,
          100000000000000000000⟩)]),
        ("provB", [("ATOM", ⟨12000000000000000000, 300000000000000000000⟩)])] "ATOM")
        (volumeSumOf [("provA", [("ATOM", ⟨10000000000000000000, 100000000000000000000⟩)]),
        ("provB", [("ATOM", ⟨12000000000000000000, 300000000000000000000⟩)])] "ATOM"))
      ∧ 10000000000000000000 ≤ decQuo (weightedPriceSum [("provA", [("ATOM",
          ⟨10000000000000000000, 100000000000000000000⟩)]),
        ("provB", [("ATOM", ⟨12000000000000000000, 300000000000000000000⟩)])] "ATOM")
        (volumeSumOf [("provA", [("ATOM", ⟨10000000000000000000, 100000000000000000000⟩)]),
        ("provB", [("ATOM", ⟨12000000000000000000, 300000000000000000000⟩)])] "ATOM")
      ∧ decQuo (weightedPriceSum [("provA", [("ATOM", ⟨10000000000000000000,
          100000000000000000000⟩)]),
        ("provB", [("ATOM", ⟨12000000000000000000, 300000000000000000000⟩)])] "ATOM")
        (volumeSumOf [("provA", [("ATOM", ⟨10000000000000000000, 100000000000000000000⟩)]),
        ("provB", [("ATOM", ⟨12000000000000000000, 300000000000000000000⟩)])] "ATOM")
        ≤ 12000000000000000000)
    ∧ lookupA (ComputeVWAP [("provA", [("ATOM", ⟨10000000000000000000,
        100000000000000000000⟩)]),
        ("provB", [("ATOM", ⟨12000000000000000000, 300000000000000000000⟩)])] ) "ATOM" =
      some 11500000000000000000 := by
  constructor
  · exact computeVWAP_convex_bounds _ "ATOM" 10000000000000000000 12000000000000000000
      (by decide) (by decide) (by decide) (by decide) (by decide)
  · decide

end PriceFeeder
